import Mathlib

/-!
# Verification of the DBN training driver (`dbnmodel/DBN.py`)

This file shallowly embeds the data model and orchestration logic of the
`DBN` / `DbnClassifier` classes and proves or refutes the specification's
claims about them.

Numeric scalars (losses, patience, thresholds) are modelled as exact
rationals `ℚ`; the claims under consideration concern control flow and
comparisons whose operands are exactly representable, not float rounding.
Parameters (weight matrices, bias vectors) are modelled as references
(naturals) into an explicit store, so that the source's
sharing-by-reference of tensors between a `HiddenLayer` and its `RBM`
becomes reference equality, and in-place updates become store updates.
-/

namespace DBNSpec

/-! ## One-hot → integer label conversion (`bin_to_int`, DBN.py lines 303-311)

```
def bin_to_int(mat):
    n = numpy.shape(mat)[0]
    m = numpy.shape(mat)[1]
    res = numpy.zeros(n)
    for i in range(0, n):
        for j in range(0,m):
            if mat[i][j] == 1:
                res[i] = j
    return res
```

A matrix is a list of rows of rationals; `numpy.shape` of a (rectangular)
2-D array yields `n` = number of rows and `m` = length of the first row.
The result cell starts at `0` and is overwritten by each column index `j`
whose entry equals `1`, scanning `j` upward. -/

/-- The inner loop of `bin_to_int` for one row: `res_i` starts at `0`; for
`j = 0, …, m-1`, if `row[j] == 1` then `res_i := j`. -/
def binRow (m : Nat) (row : List ℚ) : Nat :=
  (List.range m).foldl (fun res j => if row.getD j 0 = 1 then j else res) 0

/-- `bin_to_int` from DBN.py: maps each of the `n` rows through the inner
scan over `m = len(mat[0])` columns. -/
def bin_to_int (mat : List (List ℚ)) : List Nat :=
  let n := mat.length
  let m := (mat.headD []).length
  (List.range n).map fun i => binRow m (mat.getD i [])

/-- Number of `1`-entries a row presents to the scan over columns
`0, …, m-1`. A well-formed one-hot row has `onesCount = 1`. -/
def onesCount (m : Nat) (row : List ℚ) : Nat :=
  ((List.range m).filter fun j => decide (row.getD j 0 = 1)).length

/-! ## DBN construction (`DBN.__init__`, DBN.py lines 29-136)

Parameters are references (naturals) into an external store mapping each
reference to a tensor (a rational matrix; bias vectors are one-row
matrices). Construction allocates fresh references with a counter, so
the source's "same shared variable object" becomes reference equality:
per layer `i` (counting from an initial counter `c`) the HiddenLayer
allocates `W = c+3i`, `b = c+3i+1`, the RBM reuses both and allocates
only its visible bias `c+3i+2`, and the logistic layer allocates the
final two references. -/

abbrev Tensor := List (List ℚ)

structure HiddenLayer where
  W : Nat
  b : Nat
  n_in : Nat
  n_out : Nat
deriving DecidableEq

structure RBM where
  W : Nat
  hbias : Nat
  vbias : Nat
  n_visible : Nat
  n_hidden : Nat
deriving DecidableEq

structure LogisticRegression where
  W : Nat
  b : Nat
  n_in : Nat
  n_out : Nat
deriving DecidableEq

/-- Modelled from the spec: `HiddenLayer` lives in the collaborator
module `mlp.py`, which is not under `src/`; per the spec it is "a
fully-connected affine transform plus nonlinearity" owning a weight
matrix and a bias vector, so construction allocates two fresh parameter
references. -/
def mkHiddenLayer (c : Nat) (n_in n_out : Nat) : HiddenLayer × Nat :=
  ({ W := c, b := c + 1, n_in := n_in, n_out := n_out }, c + 2)

/-- Modelled from the spec: a HiddenLayer's `params` are its weight and
bias, `[W, b]`. -/
def HiddenLayer.paramRefs (hl : HiddenLayer) : List Nat := [hl.W, hl.b]

/-- Modelled from the spec: `RBM` lives in `rbm.py`, which is not under
`src/`; per the spec it shares the `W` and `hbias` it is given "by
reference (not copy)" and owns only its visible bias, so construction
allocates a single fresh reference, for `vbias`. -/
def mkRBM (c : Nat) (n_visible n_hidden : Nat) (W hbias : Nat) : RBM × Nat :=
  ({ W := W, hbias := hbias, vbias := c, n_visible := n_visible,
     n_hidden := n_hidden }, c + 1)

/-- Modelled from the spec: `LogisticRegression` lives in
`logistic_sgd.py`, which is not under `src/`; per the spec it is "a
linear classifier with softmax output" owning a weight and a bias, so
its `params` are `[W, b]`. -/
def mkLogisticRegression (c : Nat) (n_in n_out : Nat) :
    LogisticRegression × Nat :=
  ({ W := c, b := c + 1, n_in := n_in, n_out := n_out }, c + 2)

/-- Result of the layer loop of `DBN.__init__`. -/
structure LayerStack where
  sigmoids : List HiddenLayer
  rbms : List RBM
  params : List Nat
  counter : Nat
  last_size : Nat
deriving DecidableEq

/-- The layer loop of `DBN.__init__` (DBN.py lines 77-120): for each
layer, `input_size` is `n_ins` for the first layer and the previous
hidden size otherwise; build a HiddenLayer, extend `params` with its
`[W, b]`, and build an RBM passing `W=sigmoid_layer.W` and
`hbias=sigmoid_layer.b`. -/
def buildLayers (c input_size : Nat) : List Nat → LayerStack
  | [] => { sigmoids := [], rbms := [], params := [], counter := c,
            last_size := input_size }
  | h :: rest =>
      let hl := (mkHiddenLayer c input_size h).1
      let c1 := (mkHiddenLayer c input_size h).2
      let rbm := (mkRBM c1 input_size h hl.W hl.b).1
      let c2 := (mkRBM c1 input_size h hl.W hl.b).2
      let s := buildLayers c2 h rest
      { sigmoids := hl :: s.sigmoids, rbms := rbm :: s.rbms,
        params := hl.paramRefs ++ s.params, counter := s.counter,
        last_size := s.last_size }

structure DBN where
  sigmoid_layers : List HiddenLayer
  rbm_layers : List RBM
  params : List Nat
  logLayer : LogisticRegression
  n_layers : Nat
deriving DecidableEq

/-- The construction-time configuration check of `DBN.__init__`
(DBN.py line 57, `assert self.n_layers > 0`; the spec's
ConfigurationError). -/
def configurationError : String :=
  "ConfigurationError: hidden_layers_sizes must contain at least one value"

/-- `DBN.__init__` (DBN.py lines 29-136): check the hidden-layer list is
nonempty, run the layer loop, then append the logistic layer's `[W, b]`
to `params`. Construction is separate from — and precedes — training. -/
def mkDBN (n_ins : Nat) (hidden_layers_sizes : List Nat) (n_outs : Nat) :
    Except String DBN :=
  if hidden_layers_sizes.length > 0 then
    let s := buildLayers 0 n_ins hidden_layers_sizes
    let ll := (mkLogisticRegression s.counter s.last_size n_outs).1
    .ok { sigmoid_layers := s.sigmoids, rbm_layers := s.rbms,
          params := s.params ++ [ll.W, ll.b], logLayer := ll,
          n_layers := hidden_layers_sizes.length }
  else
    .error configurationError

/-! ## The parameter store and the HiddenLayer forward pass

Modelled from the spec: the forward computation of `HiddenLayer` lives
in `mlp.py`, which is not under `src/`; per the spec it is "a
fully-connected affine transform plus nonlinearity" — `act (x·W + b)` —
reading its weight and bias through its references into the parameter
store. A pretraining update through an RBM is a store update at the
RBM's references. Bias vectors are stored as one-row tensors. -/

/-- Row-vector–matrix product `x·W` over exact rationals. -/
def xW (x : List ℚ) (W : Tensor) : List ℚ :=
  (List.range (W.headD []).length).map fun j =>
    ((List.range W.length).map fun i => x.getD i 0 * (W.getD i []).getD j 0).sum

/-- Componentwise vector sum. -/
def addVec (a b : List ℚ) : List ℚ := a.zipWith (· + ·) b

/-- Modelled from the spec: the HiddenLayer forward pass
`activation(x·W + b)` (`mlp.py`, not under `src/`), with the activation
abstract and the parameters read from the store. -/
def hiddenOutput (act : List ℚ → List ℚ) (store : Nat → Tensor)
    (hl : HiddenLayer) (x : List ℚ) : List ℚ :=
  act (addVec (xW x (store hl.W)) ((store hl.b).headD []))

/-- One fine-tuning update (`build_finetune_functions`, DBN.py lines
214-233): every parameter in `DBN.params` is replaced — in the source by
`param ← param − learning_rate·gradient`, abstracted here as an
arbitrary new value `g r` — and no other store cell changes. -/
def finetuneUpdate (d : DBN) (g : Nat → Tensor) (store : Nat → Tensor) :
    Nat → Tensor :=
  fun r => if r ∈ d.params then g r else store r

/-- A concrete two-layer DBN: `mkDBN 4 [3, 2] 2` allocates references
`0,1,2` to layer 0, `3,4,5` to layer 1 and `6,7` to the logistic
layer. -/
def dbnExample : DBN :=
  { sigmoid_layers := [⟨0, 1, 4, 3⟩, ⟨3, 4, 3, 2⟩],
    rbm_layers := [⟨0, 1, 2, 4, 3⟩, ⟨3, 4, 5, 3, 2⟩],
    params := [0, 1, 3, 4, 6, 7],
    logLayer := ⟨6, 7, 2, 2⟩,
    n_layers := 2 }

def hlD : HiddenLayer := ⟨0, 0, 0, 0⟩

def rbmD : RBM := ⟨0, 0, 0, 0, 0⟩

/-! ## Fine-tuning loop with early stopping
(`DbnClassifier.train_model`, DBN.py lines 354-408)

The loop's only data dependence is the sequence of mean validation
losses; it is abstracted as an oracle `losses : Nat → ℚ` read in order
(`losses k` is the mean loss of the `k`-th validation check). Losses
and `patience` are exact rationals; every value `patience` takes in the
source (`4 * n_train_batches`, then `max(patience, iter * 2.0)`) is an
integer, so the float arithmetic involved is exact. `numpy.inf` (the
initial `best_validation_loss`) is modelled as `none`, which every
rational is below. -/

structure FTState where
  patience : ℚ
  best : Option ℚ
  best_iter : Option Nat
  done : Bool
  checks : Nat
  stop_iter : Option Nat
deriving DecidableEq

/-- `this_validation_loss < best_validation_loss` (DBN.py line 393),
`none` standing for the initial `numpy.inf` (line 366). -/
def ltBest (loss : ℚ) : Option ℚ → Bool
  | none => true
  | some b => decide (loss < b)

/-- `this_validation_loss < best_validation_loss *
improvement_threshold` with `improvement_threshold = 0.995` (lines
359, 396-399). -/
def ltThreshold (loss : ℚ) : Option ℚ → Bool
  | none => true
  | some b => decide (loss < b * (995 / 1000))

/-- The validation-check body (DBN.py lines 393-404), `t` being the
current `iter`: on a new best, extend `patience` to
`max(patience, iter * patience_increase)` (with
`patience_increase = 2.`) when the improvement also beats the
threshold, and unconditionally record the new best loss and
iteration. -/
def applyCheck (loss : ℚ) (t : Nat) (s : FTState) : FTState :=
  if ltBest loss s.best then
    { s with
      patience :=
        if ltThreshold loss s.best then max s.patience ((t : ℚ) * 2)
        else s.patience,
      best := some loss,
      best_iter := some t }
  else s

/-- `iter = (epoch_j - 1) * n_train_batches + minibatch_index`
(DBN.py line 376). -/
def ftIter (n epoch_j mb : Nat) : Nat := (epoch_j - 1) * n + mb

/-- The per-minibatch early-stopping exit (DBN.py lines 406-408): the
`done` flag is set — recording the iteration — as soon as
`patience <= iter`. -/
def ftDone (t : Nat) (s : FTState) : FTState :=
  if s.patience ≤ (t : ℚ) then { s with done := true, stop_iter := some t }
  else s

/-- One minibatch of the fine-tuning loop (DBN.py lines 373-408): run
the training step (the loop discards its cost), validate when
`(iter + 1) % validation_frequency == 0` — consuming the next mean
validation loss from the oracle — then check the patience exit. -/
def ftStep (losses : Nat → ℚ) (freq n epoch_j mb : Nat) (s : FTState) :
    FTState :=
  ftDone (ftIter n epoch_j mb)
    (if (ftIter n epoch_j mb + 1) % freq = 0 then
      applyCheck (losses s.checks) (ftIter n epoch_j mb)
        { s with checks := s.checks + 1 }
    else s)

/-- The inner `for minibatch_index in xrange(n_train_batches)` loop,
with its `break` on `done_looping` (line 408). -/
def ftEpoch (losses : Nat → ℚ) (freq n epoch_j : Nat) :
    List Nat → FTState → FTState
  | [], s => s
  | mb :: rest, s =>
      if (ftStep losses freq n epoch_j mb s).done then
        ftStep losses freq n epoch_j mb s
      else ftEpoch losses freq n epoch_j rest (ftStep losses freq n epoch_j mb s)

/-- The outer `while (epoch_j < epoch) and (not done_looping)` loop
(line 371). `fuel` bounds the recursion; since each pass increments
`epoch_j` and requires `epoch_j < epoch`, starting with `fuel = epoch`
the fuel never runs out before the `epoch_j < epoch` test fails. -/
def ftLoop (losses : Nat → ℚ) (freq n epoch : Nat) :
    Nat → Nat → FTState → FTState
  | 0, _, s => s
  | fuel + 1, epoch_j, s =>
      if epoch_j < epoch ∧ s.done = false then
        ftLoop losses freq n epoch fuel (epoch_j + 1)
          (ftEpoch losses freq n (epoch_j + 1) (List.range n) s)
      else s

/-- The initial early-stopping state (DBN.py lines 356-369):
`patience = 4 * n_train_batches`, `best_validation_loss = numpy.inf`,
`best_iter` not yet assigned. -/
def ftInit (n : Nat) : FTState :=
  { patience := 4 * n, best := none, best_iter := none, done := false,
    checks := 0, stop_iter := none }

/-- `validation_frequency = min(n_train_batches, patience / 2)` with
the initial integer `patience = 4 * n_train_batches` (line 361;
Python 2 integer division). -/
def validationFrequency (n : Nat) : Nat := min n (4 * n / 2)

/-- The fine-tuning phase of `train_model` as a function of the
validation-loss oracle, the number of training minibatches and the
epoch ceiling `max_epochs`. -/
def runFinetune (losses : Nat → ℚ) (n epoch : Nat) : FTState :=
  ftLoop losses (validationFrequency n) n epoch epoch 0 (ftInit n)

/-! ## Output filename and the full pipeline
(`DbnClassifier`, DBN.py lines 255-276 and 417-418) -/

/-- POSIX `os.path.join` restricted to the cases arising here: an
absolute second component replaces the first; otherwise the parts are
joined with a separator unless the first is empty or already ends in
one. -/
def path_join (a b : String) : String :=
  if b.data.head? = some '/' then b
  else if a = "" then b
  else if a.data.getLast? = some '/' then a ++ b
  else a ++ "/" ++ b

/-- The return value of `DbnClassifier.train_model` (DBN.py lines
417-418): the output filename is assembled by plain string
concatenation — the suffix containing `val_loss:.2f` in braces is a
string literal, and no `format` call ever substitutes the loss into it
— and it is returned together with the best validation loss of the
fine-tuning loop. -/
def train_model (losses : Nat → ℚ) (n epoch : Nat)
    (out_dir out_file_append : String) : String × Option ℚ :=
  (path_join out_dir
    ("DBN_weights_" ++ out_file_append ++ "_\x7bval_loss:.2f\x7d.hdf5"),
   (runFinetune losses n epoch).best)

/-- Modelled from the spec's words, for comparison with the code: a
nonnegative rational rendered with two decimal places, as the claimed
filename format `best_val_loss:.2f` would produce. -/
def format2f (q : ℚ) : String :=
  let c := ⌊q * 100 + 1 / 2⌋.toNat
  toString (c / 100) ++ "." ++
    (if c % 100 < 10 then "0" ++ toString (c % 100) else toString (c % 100))

/-- Modelled from the spec's words, for comparison with the code: the
claimed returned filename
`<out_dir>/DBN_weights_<out_file_append>_<best_val_loss:.2f>.hdf5`,
with the best validation loss actually formatted into it. -/
def specFilename (out_dir out_file_append : String) (best_val_loss : ℚ) :
    String :=
  path_join out_dir
    ("DBN_weights_" ++ out_file_append ++ "_" ++ format2f best_val_loss ++
      ".hdf5")

/-- The recognised configuration keys consumed by `DbnClassifier`
(DBN.py lines 256-285). -/
structure Config where
  hidden_layers : List Nat
  feat_size : Nat
  phone_vocab_size : Nat
  pre_max_epochs : Nat
  max_epochs : Nat
  batch_size : Nat
  out_dir : String
  out_file_append : String
deriving DecidableEq

structure BuiltModel where
  seed : Nat
  dbn : Except String DBN

/-- `DbnClassifier.build_model` (DBN.py lines 265-276): the
weight-initialisation RNG is `numpy.random.RandomState(123)` — the seed
is the fixed literal `123`, whatever the configuration — and the DBN is
built from the configured dimensions. -/
def build_model (cfg : Config) : BuiltModel :=
  { seed := 123,
    dbn := mkDBN cfg.feat_size cfg.hidden_layers cfg.phone_vocab_size }

/-- The pretraining loop's sequence of per-minibatch costs (DBN.py
lines 329-338): layer-major, then epoch, then batch. The numeric cost
of one CD-k step is an oracle `cost layer epoch batch` — in the source
it is a deterministic function of the seeded initial weights and the
minibatch data, both part of the run's input. -/
def pretrain_costs (cost : Nat → Nat → Nat → ℚ)
    (n_layers pre_epochs n_batches : Nat) : List ℚ :=
  (List.range n_layers).flatMap fun i =>
    (List.range pre_epochs).flatMap fun e =>
      (List.range n_batches).map fun b => cost i e b

/-- The `DbnClassifier` pipeline at the orchestration level: build,
pretrain, fine-tune, report. All numeric computation enters through
the `cost` and `losses` oracles, which the source derives
deterministically from the seeded weights and the input data. -/
def dbn_run (cfg : Config) (cost : Nat → Nat → Nat → ℚ) (losses : Nat → ℚ)
    (n_batches : Nat) : BuiltModel × List ℚ × (String × Option ℚ) :=
  (build_model cfg,
   pretrain_costs cost cfg.hidden_layers.length cfg.pre_max_epochs n_batches,
   train_model losses n_batches cfg.max_epochs cfg.out_dir
     cfg.out_file_append)

def cfgExample : Config :=
  { hidden_layers := [3, 2], feat_size := 4, phone_vocab_size := 2,
    pre_max_epochs := 1, max_epochs := 5, batch_size := 1,
    out_dir := "out", out_file_append := "a" }

/-- Unfold the scan at its last column. -/
theorem binRow_succ (m : Nat) (row : List ℚ) :
    binRow (m + 1) row = if row.getD m 0 = 1 then m else binRow m row := by
  unfold binRow
  rw [List.range_succ, List.foldl_append]
  rfl

/-- If no column `j < m` of the row holds a `1`, the scan leaves the
initial `0` in place. -/
theorem binRow_eq_zero (m : Nat) (row : List ℚ)
    (h : ∀ j < m, row.getD j 0 ≠ 1) : binRow m row = 0 := by
  induction m with
  | zero => rfl
  | succ m ih =>
      rw [binRow_succ, if_neg (h m (Nat.lt_succ_self m))]
      exact ih fun j hj => h j (Nat.lt_succ_of_lt hj)

/-- If `j0 < m` holds a `1` and no later column `< m` does, the scan ends
at `j0` (the last write wins). -/
theorem binRow_eq_last (m : Nat) (row : List ℚ) (j0 : Nat)
    (hj0 : j0 < m) (h1 : row.getD j0 0 = 1)
    (hlast : ∀ j, j0 < j → j < m → row.getD j 0 ≠ 1) : binRow m row = j0 := by
  induction m with
  | zero => exact absurd hj0 (Nat.not_lt_zero j0)
  | succ m ih =>
      rw [binRow_succ]
      rcases Nat.lt_succ_iff_lt_or_eq.mp hj0 with hlt | heq
      · rw [if_neg (hlast m hlt (Nat.lt_succ_self m))]
        exact ih hlt fun j hj hjm => hlast j hj (Nat.lt_succ_of_lt hjm)
      · subst heq
        rw [if_pos h1]

theorem bin_to_int_length (mat : List (List ℚ)) :
    (bin_to_int mat).length = mat.length := by
  simp [bin_to_int]

theorem bin_to_int_getD (mat : List (List ℚ)) (i : Nat) (hi : i < mat.length) :
    (bin_to_int mat).getD i 0 = binRow (mat.headD []).length (mat.getD i []) := by
  unfold bin_to_int
  rw [List.getD_eq_getElem?_getD, List.getElem?_map]
  rw [List.getElem?_range hi]
  rfl

/-- Complete characterisation of the row scan: either no column `< m`
holds a `1` and the result is the initial `0`, or the result is the
greatest column `< m` holding a `1`. -/
theorem binRow_cases (m : Nat) (row : List ℚ) :
    ((∀ j < m, row.getD j 0 ≠ 1) ∧ binRow m row = 0) ∨
    (binRow m row < m ∧ row.getD (binRow m row) 0 = 1 ∧
      ∀ j, binRow m row < j → j < m → row.getD j 0 ≠ 1) := by
  induction m with
  | zero => exact Or.inl ⟨fun j hj => absurd hj (Nat.not_lt_zero j), rfl⟩
  | succ m ih =>
      by_cases hm : row.getD m 0 = 1
      · refine Or.inr ?_
        rw [binRow_succ, if_pos hm]
        exact ⟨Nat.lt_succ_self m, hm,
          fun j hj hjm => absurd (Nat.lt_of_lt_of_le hj (Nat.lt_succ_iff.mp hjm))
            (Nat.lt_irrefl m)⟩
      · rw [binRow_succ, if_neg hm]
        rcases ih with ⟨hnone, hz⟩ | ⟨hlt, h1, hlast⟩
        · refine Or.inl ⟨fun j hj => ?_, hz⟩
          rcases Nat.lt_succ_iff_lt_or_eq.mp hj with h | h
          · exact hnone j h
          · subst h; exact hm
        · refine Or.inr ⟨Nat.lt_succ_of_lt hlt, h1, fun j hj hjm => ?_⟩
          rcases Nat.lt_succ_iff_lt_or_eq.mp hjm with h | h
          · exact hlast j hj h
          · subst h; exact hm

theorem onesCount_eq_zero_iff (m : Nat) (row : List ℚ) :
    onesCount m row = 0 ↔ ∀ j < m, row.getD j 0 ≠ 1 := by
  unfold onesCount
  rw [List.length_eq_zero, List.filter_eq_nil_iff]
  simp

/-- C5: `bin_to_int` on a well-formed one-hot matrix (row `i` holds its
unique `1` in column `lab i`) returns `[lab 0, …, lab (n-1)]`. -/
theorem bin_to_int_one_hot (mat : List (List ℚ)) (lab : Nat → Nat)
    (hone : ∀ i < mat.length, lab i < (mat.headD []).length ∧
      (mat.getD i []).getD (lab i) 0 = 1 ∧
      ∀ j < (mat.headD []).length, j ≠ lab i → (mat.getD i []).getD j 0 ≠ 1) :
    bin_to_int mat = (List.range mat.length).map lab := by
  unfold bin_to_int
  refine List.map_congr_left fun i hi => ?_
  have hi' : i < mat.length := List.mem_range.mp hi
  obtain ⟨hlt, h1, huniq⟩ := hone i hi'
  exact binRow_eq_last _ _ _ hlt h1
    (fun j hj hjm => huniq j hjm (Nat.ne_of_gt hj))

/-- Witness for C5 at the spec's concrete example:
`[[0,1,0],[1,0,0],[0,0,1]] ↦ [1,0,2]`. -/
theorem bin_to_int_one_hot_witness :
    bin_to_int [[0,1,0],[1,0,0],[0,0,1]] = [1,0,2] :=
  (bin_to_int_one_hot [[0,1,0],[1,0,0],[0,0,1]] (fun i => [1,0,2].getD i 0)
    (by decide)).trans (by decide)

/-- C10: the conversion is total — it yields one label per row for every
(rectangular) numeric matrix — a row with no `1` yields label `0`, and a
row whose greatest `1`-column (no later `1` before `m`) is `j0` yields
`j0`, the last-scanned match overwriting earlier ones. -/
theorem bin_to_int_total (mat : List (List ℚ)) :
    (bin_to_int mat).length = mat.length ∧
    ∀ i < mat.length,
      ((∀ j < (mat.headD []).length, (mat.getD i []).getD j 0 ≠ 1) →
        (bin_to_int mat).getD i 0 = 0) ∧
      (∀ j0 < (mat.headD []).length, (mat.getD i []).getD j0 0 = 1 →
        (∀ j, j0 < j → j < (mat.headD []).length → (mat.getD i []).getD j 0 ≠ 1) →
        (bin_to_int mat).getD i 0 = j0) := by
  refine ⟨bin_to_int_length mat, fun i hi => ?_⟩
  rw [bin_to_int_getD mat i hi]
  exact ⟨binRow_eq_zero _ _, fun j0 hj0 h1 hlast => binRow_eq_last _ _ _ hj0 h1 hlast⟩

/-- Witness for C10 on a malformed matrix: row `[0,0]` (no `1`) yields
`0` and row `[1,1]` (two `1`s) yields the last-scanned column `1`. -/
theorem bin_to_int_total_witness :
    (bin_to_int [[0,0],[1,1]]).getD 0 0 = 0 ∧
      (bin_to_int [[0,0],[1,1]]).getD 1 0 = 1 :=
  ⟨((bin_to_int_total [[0,0],[1,1]]).2 0 (by decide)).1 (by decide),
   ((bin_to_int_total [[0,0],[1,1]]).2 1 (by decide)).2 1 (by decide) (by decide)
     (fun j hj hjm =>
       absurd (Nat.lt_of_lt_of_le hj (Nat.lt_succ_iff.mp hjm)) (Nat.lt_irrefl 1))⟩

/-- C4 counterexample: on the malformed matrix `[[0,0],[1,1]]` (first row
has zero `1`-entries, second has two) `bin_to_int` raises no error — it
silently returns the label vector `[0,1]`, and the source has no error
path at all; the claim that malformed rows are rejected before training
is false of the code. -/
theorem bin_to_int_no_validation :
    bin_to_int [[0,0],[1,1]] = [0,1] := by decide

/-- C4 (amended): for every matrix containing a malformed row (a row `i`
whose `1`-entry count differs from one), the conversion still silently
returns one label per row — a zero-`1` row keeps label `0`, and a row
with at least one `1` gets the greatest `1`-column — instead of raising
an input-validation error. -/
theorem bin_to_int_malformed_silent (mat : List (List ℚ)) (i : Nat)
    (hi : i < mat.length)
    (hmal : onesCount (mat.headD []).length (mat.getD i []) ≠ 1) :
    (bin_to_int mat).length = mat.length ∧
    (onesCount (mat.headD []).length (mat.getD i []) = 0 →
      (bin_to_int mat).getD i 0 = 0) ∧
    (onesCount (mat.headD []).length (mat.getD i []) ≠ 0 →
      (mat.getD i []).getD ((bin_to_int mat).getD i 0) 0 = 1 ∧
      ∀ j < (mat.headD []).length, (mat.getD i []).getD j 0 = 1 →
        j ≤ (bin_to_int mat).getD i 0) := by
  refine ⟨bin_to_int_length mat, fun hz => ?_, fun hnz => ?_⟩
  · rw [bin_to_int_getD mat i hi]
    exact binRow_eq_zero _ _ ((onesCount_eq_zero_iff _ _).mp hz)
  · rw [bin_to_int_getD mat i hi]
    rcases binRow_cases (mat.headD []).length (mat.getD i []) with ⟨hnone, _⟩ | ⟨_, h1, hlast⟩
    · exact absurd ((onesCount_eq_zero_iff _ _).mpr hnone) hnz
    · refine ⟨h1, fun j hj hj1 => ?_⟩
      by_contra hle
      exact hlast j (Nat.lt_of_not_le hle) hj hj1

/-- Witness for C4's amended theorem at the matrix `[[0,0],[1,1]]`,
row `1` (two `1`-entries). -/
theorem bin_to_int_malformed_silent_witness :
    (bin_to_int [[0,0],[1,1]]).length = 2 ∧
      ((bin_to_int [[0,0],[1,1]]).getD 1 0 = 0 ∨
        ([[(0:ℚ),0],[1,1]].getD 1 []).getD ((bin_to_int [[0,0],[1,1]]).getD 1 0) 0 = 1) := by
  have h := bin_to_int_malformed_silent [[0,0],[1,1]] 1 (by decide) (by decide)
  exact ⟨h.1, Or.inr (h.2.2 (by decide)).1⟩

/-- Unfold one step of the layer loop: the HiddenLayer takes references
`c, c+1`, the RBM reuses them and takes `c+2` for its visible bias. -/
theorem buildLayers_cons (c input_size h : Nat) (rest : List Nat) :
    buildLayers c input_size (h :: rest) =
      { sigmoids := { W := c, b := c + 1, n_in := input_size, n_out := h } ::
          (buildLayers (c + 3) h rest).sigmoids,
        rbms := { W := c, hbias := c + 1, vbias := c + 2,
                  n_visible := input_size, n_hidden := h } ::
          (buildLayers (c + 3) h rest).rbms,
        params := c :: (c + 1) :: (buildLayers (c + 3) h rest).params,
        counter := (buildLayers (c + 3) h rest).counter,
        last_size := (buildLayers (c + 3) h rest).last_size } := rfl

theorem buildLayers_counter (sizes : List Nat) :
    ∀ c input_size, (buildLayers c input_size sizes).counter =
      c + 3 * sizes.length := by
  induction sizes with
  | nil => intro c input_size; simp [buildLayers]
  | cons h rest ih =>
      intro c input_size
      rw [buildLayers_cons]
      simp only [List.length_cons]
      rw [ih]
      omega

theorem buildLayers_lengths (sizes : List Nat) :
    ∀ c input_size,
      (buildLayers c input_size sizes).sigmoids.length = sizes.length ∧
      (buildLayers c input_size sizes).rbms.length = sizes.length ∧
      (buildLayers c input_size sizes).params.length = 2 * sizes.length := by
  induction sizes with
  | nil => intro c input_size; simp [buildLayers]
  | cons h rest ih =>
      intro c input_size
      rw [buildLayers_cons]
      obtain ⟨h1, h2, h3⟩ := ih (c + 3) h
      simp only [List.length_cons, h1, h2, h3, true_and]
      omega

theorem buildLayers_params_shape (sizes : List Nat) :
    ∀ c input_size, ∀ p ∈ (buildLayers c input_size sizes).params,
      ∃ i < sizes.length, p = c + 3 * i ∨ p = c + 3 * i + 1 := by
  induction sizes with
  | nil => intro c input_size p hp; simp [buildLayers] at hp
  | cons h rest ih =>
      intro c input_size p hp
      rw [buildLayers_cons] at hp
      simp only [List.mem_cons] at hp
      rcases hp with hp | hp | hp
      · exact ⟨0, Nat.succ_pos _, Or.inl (by omega)⟩
      · exact ⟨0, Nat.succ_pos _, Or.inr (by omega)⟩
      · obtain ⟨i, hi, hcase⟩ := ih (c + 3) h p hp
        exact ⟨i + 1, Nat.succ_lt_succ hi, by omega⟩

theorem buildLayers_vbias_shape (sizes : List Nat) :
    ∀ c input_size, ∀ r ∈ (buildLayers c input_size sizes).rbms,
      ∃ i < sizes.length, r.vbias = c + 3 * i + 2 := by
  induction sizes with
  | nil => intro c input_size r hr; simp [buildLayers] at hr
  | cons h rest ih =>
      intro c input_size r hr
      rw [buildLayers_cons] at hr
      simp only [List.mem_cons] at hr
      rcases hr with hr | hr
      · exact ⟨0, Nat.succ_pos _, by rw [hr]⟩
      · obtain ⟨i, hi, hcase⟩ := ih (c + 3) h r hr
        exact ⟨i + 1, Nat.succ_lt_succ hi, by omega⟩

theorem buildLayers_pairing (sizes : List Nat) :
    ∀ c input_size i, i < sizes.length →
      ∀ (dH : HiddenLayer) (dR : RBM),
      ((buildLayers c input_size sizes).rbms.getD i dR).W =
        ((buildLayers c input_size sizes).sigmoids.getD i dH).W ∧
      ((buildLayers c input_size sizes).rbms.getD i dR).hbias =
        ((buildLayers c input_size sizes).sigmoids.getD i dH).b ∧
      ((buildLayers c input_size sizes).sigmoids.getD i dH).W ≠
        ((buildLayers c input_size sizes).sigmoids.getD i dH).b := by
  induction sizes with
  | nil => intro c input_size i hi; exact absurd hi (Nat.not_lt_zero i)
  | cons h rest ih =>
      intro c input_size i hi dH dR
      cases i with
      | zero => rw [buildLayers_cons]; exact ⟨rfl, rfl, by simp⟩
      | succ i =>
          have hi' : i < rest.length := Nat.lt_of_succ_lt_succ hi
          rw [buildLayers_cons]
          simpa using ih (c + 3) h i hi' dH dR

/-- Inversion of a successful `mkDBN`: the components are exactly those
of the layer loop started at counter `0`, plus the logistic layer's two
references appended to `params`. -/
theorem mkDBN_ok (n_ins : Nat) (hs : List Nat) (n_outs : Nat) (d : DBN)
    (h : mkDBN n_ins hs n_outs = .ok d) :
    0 < hs.length ∧
    d.sigmoid_layers = (buildLayers 0 n_ins hs).sigmoids ∧
    d.rbm_layers = (buildLayers 0 n_ins hs).rbms ∧
    d.params = (buildLayers 0 n_ins hs).params ++
      [(buildLayers 0 n_ins hs).counter, (buildLayers 0 n_ins hs).counter + 1] ∧
    d.n_layers = hs.length := by
  unfold mkDBN at h
  split at h
  · next hpos => cases h; exact ⟨hpos, rfl, rfl, rfl, rfl⟩
  · cases h

/-- C2: in every constructed DBN, the `i`-th RBM holds the same weight
reference and the same hidden-bias reference as the `i`-th HiddenLayer
(`W=sigmoid_layer.W`, `hbias=sigmoid_layer.b`, DBN.py lines 112-119);
consequently a pretraining update writing a new weight tensor `v`
through `RBM[i].W` is exactly what `HiddenLayer[i]`'s forward pass then
reads: it computes `act (x·v + b)`. -/
theorem dbn_weight_sharing (n_ins : Nat) (hs : List Nat) (n_outs : Nat)
    (d : DBN) (h : mkDBN n_ins hs n_outs = .ok d) (i : Nat)
    (hi : i < d.n_layers) (dH : HiddenLayer) (dR : RBM) :
    (d.rbm_layers.getD i dR).W = (d.sigmoid_layers.getD i dH).W ∧
    (d.rbm_layers.getD i dR).hbias = (d.sigmoid_layers.getD i dH).b ∧
    ∀ (act : List ℚ → List ℚ) (store : Nat → Tensor) (v : Tensor) (x : List ℚ),
      hiddenOutput act (Function.update store (d.rbm_layers.getD i dR).W v)
          (d.sigmoid_layers.getD i dH) x
        = act (addVec (xW x v)
            ((store (d.sigmoid_layers.getD i dH).b).headD [])) := by
  obtain ⟨hpos, hsig, hrbm, hpar, hn⟩ := mkDBN_ok n_ins hs n_outs d h
  rw [hsig, hrbm]
  rw [hn] at hi
  obtain ⟨hW, hb, hne⟩ := buildLayers_pairing hs 0 n_ins i hi dH dR
  refine ⟨hW, hb, fun act store v x => ?_⟩
  unfold hiddenOutput
  rw [hW, Function.update_same,
    Function.update_noteq (Ne.symm hne) v store]

/-- Witness for C2 at the concrete DBN `mkDBN 4 [3, 2] 2`, layer 1. -/
theorem dbn_weight_sharing_witness :
    mkDBN 4 [3, 2] 2 = .ok dbnExample ∧
      (dbnExample.rbm_layers.getD 1 rbmD).W =
        (dbnExample.sigmoid_layers.getD 1 hlD).W ∧
      (dbnExample.rbm_layers.getD 1 rbmD).hbias =
        (dbnExample.sigmoid_layers.getD 1 hlD).b := by
  have h : mkDBN 4 [3, 2] 2 = .ok dbnExample := by rfl
  have hw := dbn_weight_sharing 4 [3, 2] 2 dbnExample h 1 (by decide) hlD rbmD
  exact ⟨h, hw.1, hw.2.1⟩

/-- C3: every constructed DBN has `params` of length exactly
`2*(n_layers+1)` — `[W, b]` per hidden layer (line 110) plus the
logistic layer's `[W, b]` (line 127) — no RBM visible bias is in
`params`, and hence the fine-tuning update, which rewrites exactly the
members of `params`, leaves every visible bias cell of the store
unchanged. -/
theorem dbn_params_spec (n_ins : Nat) (hs : List Nat) (n_outs : Nat)
    (d : DBN) (h : mkDBN n_ins hs n_outs = .ok d) :
    d.params.length = 2 * (d.n_layers + 1) ∧
    (∀ r ∈ d.rbm_layers, r.vbias ∉ d.params) ∧
    ∀ (g store : Nat → Tensor), ∀ r ∈ d.rbm_layers,
      finetuneUpdate d g store r.vbias = store r.vbias := by
  obtain ⟨hpos, hsig, hrbm, hpar, hn⟩ := mkDBN_ok n_ins hs n_outs d h
  have hnv : ∀ r ∈ d.rbm_layers, r.vbias ∉ d.params := by
    intro r hr hmem
    rw [hrbm] at hr
    obtain ⟨i, hi, hv⟩ := buildLayers_vbias_shape hs 0 n_ins r hr
    rw [hpar] at hmem
    rcases List.mem_append.mp hmem with hmem | hmem
    · obtain ⟨j, hj, hc⟩ := buildLayers_params_shape hs 0 n_ins r.vbias hmem
      omega
    · rw [buildLayers_counter] at hmem
      simp only [List.mem_cons, List.not_mem_nil, or_false] at hmem
      omega
  refine ⟨?_, hnv, fun g store r hr => ?_⟩
  · rw [hpar, hn, List.length_append,
      (buildLayers_lengths hs 0 n_ins).2.2]
    simp only [List.length_cons, List.length_nil]
    omega
  · unfold finetuneUpdate
    rw [if_neg (hnv r hr)]

/-- Witness for C3 at the concrete DBN `mkDBN 4 [3, 2] 2`: six
parameters for two hidden layers, and layer 0's visible bias (reference
`2`) is not among them. -/
theorem dbn_params_spec_witness :
    dbnExample.params.length = 2 * (dbnExample.n_layers + 1) ∧
      (2 : Nat) ∉ dbnExample.params := by
  have h := dbn_params_spec 4 [3, 2] 2 dbnExample (by rfl)
  refine ⟨h.1, ?_⟩
  have hv := h.2.1 ⟨0, 1, 2, 4, 3⟩ (by decide)
  simpa using hv

/-- C8: `mkDBN` (hence `DBN.__init__`, via `DbnClassifier.build_model`,
which runs before any training) fails with the configuration error
exactly on an empty `hidden_layers_sizes` list (`assert self.n_layers >
0`, DBN.py line 57); any list with at least one element constructs
successfully. -/
theorem mkDBN_config_guard (n_ins : Nat) (hs : List Nat) (n_outs : Nat) :
    (hs.length < 1 → mkDBN n_ins hs n_outs = .error configurationError) ∧
    (1 ≤ hs.length → ∃ d, mkDBN n_ins hs n_outs = .ok d) := by
  constructor
  · intro hlt
    unfold mkDBN
    rw [if_neg (by omega)]
  · intro hge
    unfold mkDBN
    rw [if_pos (by omega)]
    exact ⟨_, rfl⟩

/-- Witness for C8: the empty list is rejected with the configuration
error; `[3]` constructs. -/
theorem mkDBN_config_guard_witness :
    mkDBN 4 ([] : List Nat) 2 = .error configurationError ∧
      ∃ d, mkDBN 4 [3] 2 = .ok d :=
  ⟨(mkDBN_config_guard 4 [] 2).1 (by decide),
   (mkDBN_config_guard 4 [3] 2).2 (by decide)⟩

/-- C7: at a validation check, a loss strictly below the best seen so
far unconditionally updates `best_validation_loss` and `best_iter` to
the new loss and the current iteration `t`, and sets `patience` to
`max(patience, t * 2.0)` exactly when the loss is also below
`best * 0.995`; a loss that is not a new best leaves the whole state —
`patience`, `best_validation_loss` and `best_iter` included —
unchanged. -/
theorem applyCheck_spec (loss : ℚ) (t : Nat) (s : FTState) :
    (ltBest loss s.best = true →
      (applyCheck loss t s).best = some loss ∧
      (applyCheck loss t s).best_iter = some t ∧
      (applyCheck loss t s).patience =
        (if ltThreshold loss s.best = true then max s.patience ((t : ℚ) * 2)
         else s.patience)) ∧
    (ltBest loss s.best = false → applyCheck loss t s = s) := by
  constructor
  · intro hb
    unfold applyCheck
    rw [if_pos hb]
    exact ⟨rfl, rfl, rfl⟩
  · intro hb
    unfold applyCheck
    rw [if_neg (by simp [hb])]

/-- Witness for C7: from best loss `1` at patience `8`, a check with
loss `1/2` at iteration `9` updates the best, records iteration `9`,
and extends patience to `max 8 18 = 18`; a check with loss `2` changes
nothing. -/
theorem applyCheck_spec_witness :
    (applyCheck (1/2) 9 ⟨8, some 1, some 1, false, 2, none⟩).best = some (1/2) ∧
    (applyCheck (1/2) 9 ⟨8, some 1, some 1, false, 2, none⟩).best_iter = some 9 ∧
    (applyCheck (1/2) 9 ⟨8, some 1, some 1, false, 2, none⟩).patience = 18 ∧
    applyCheck 2 9 ⟨8, some 1, some 1, false, 2, none⟩ =
      ⟨8, some 1, some 1, false, 2, none⟩ := by
  have h := applyCheck_spec (1/2) 9 ⟨8, some 1, some 1, false, 2, none⟩
  have h1 := h.1 (by norm_num [ltBest])
  have h2 := (applyCheck_spec 2 9 ⟨8, some 1, some 1, false, 2, none⟩).2
    (by norm_num [ltBest])
  refine ⟨h1.1, h1.2.1, h1.2.2.trans ?_, h2⟩
  have ht : ltThreshold (1/2) (some 1) = true := by norm_num [ltThreshold]
  simp only [ht, if_true, max_def]
  norm_num

theorem ftEpoch_cons (losses : Nat → ℚ) (freq n e mb : Nat) (l : List Nat)
    (s : FTState) :
    ftEpoch losses freq n e (mb :: l) s =
      if (ftStep losses freq n e mb s).done = true then
        ftStep losses freq n e mb s
      else ftEpoch losses freq n e l (ftStep losses freq n e mb s) := rfl

theorem ftEpoch_singleton (losses : Nat → ℚ) (freq n e mb : Nat) (s : FTState) :
    ftEpoch losses freq n e [mb] s = ftStep losses freq n e mb s := by
  rw [ftEpoch_cons]
  split <;> rfl

/-- A minibatch that neither validates nor exhausts patience leaves the
state unchanged. -/
theorem ftStep_noop (losses : Nat → ℚ) (freq n e mb : Nat) (s : FTState)
    (hmod : (ftIter n e mb + 1) % freq ≠ 0)
    (hpat : ¬ s.patience ≤ ((ftIter n e mb : Nat) : ℚ)) :
    ftStep losses freq n e mb s = s := by
  unfold ftStep
  rw [if_neg hmod]
  unfold ftDone
  rw [if_neg hpat]

/-- Skipping a prefix of minibatches on which nothing happens. -/
theorem ftEpoch_skip (losses : Nat → ℚ) (freq n e : Nat) (l1 l2 : List Nat)
    (s : FTState) (hdone : s.done = false)
    (h : ∀ mb ∈ l1, (ftIter n e mb + 1) % freq ≠ 0 ∧
      ¬ s.patience ≤ ((ftIter n e mb : Nat) : ℚ)) :
    ftEpoch losses freq n e (l1 ++ l2) s = ftEpoch losses freq n e l2 s := by
  induction l1 with
  | nil => rfl
  | cons mb rest ih =>
      obtain ⟨hmod, hpat⟩ := h mb (List.mem_cons_self mb rest)
      rw [List.cons_append, ftEpoch_cons, ftStep_noop losses freq n e mb s hmod hpat,
        if_neg (by simp [hdone])]
      exact ih fun mb' hm => h mb' (List.mem_cons_of_mem _ hm)

theorem ltBest_none (loss : ℚ) : ltBest loss none = true := rfl

theorem ltThreshold_none (loss : ℚ) : ltThreshold loss none = true := rfl

/-- A check against the initial `inf` best always improves and always
beats the threshold. -/
theorem applyCheck_none (loss : ℚ) (t : Nat) (s : FTState)
    (h : s.best = none) :
    applyCheck loss t s =
      { s with patience := max s.patience ((t : ℚ) * 2), best := some loss,
               best_iter := some t } := by
  unfold applyCheck
  rw [h, ltBest_none, ltThreshold_none, if_pos rfl, if_pos rfl]

/-- A check that does not improve on the recorded best changes
nothing. -/
theorem applyCheck_stale (loss : ℚ) (t : Nat) (s : FTState) (b : ℚ)
    (h : s.best = some b) (hge : b ≤ loss) :
    applyCheck loss t s = s := by
  unfold applyCheck
  rw [h, show ltBest loss (some b) = false by simp [ltBest]; exact hge]
  rw [if_neg (by simp)]

/-- The first fine-tuning epoch under the validation frequency
`freq = n`: nothing happens until the last minibatch, whose validation
(the first check, at `iter = n - 1`) beats `inf`, leaves
`patience = 4n` (since `2(n-1) ≤ 4n`) and records the first loss and
`best_iter = n - 1`. -/
theorem ftEpoch_first (losses : Nat → ℚ) (n : Nat) (hn : 1 ≤ n) :
    ftEpoch losses n n 1 (List.range n) (ftInit n) =
      { patience := 4 * n, best := some (losses 0), best_iter := some (n - 1),
        done := false, checks := 1, stop_iter := none } := by
  have hr : List.range n = List.range (n - 1) ++ [n - 1] := by
    conv_lhs => rw [show n = (n - 1) + 1 by omega]
    rw [List.range_succ]
  rw [hr, ftEpoch_skip losses n n 1 _ _ _ rfl ?side, ftEpoch_singleton]
  case side =>
    intro mb hmb
    have hmblt : mb < n - 1 := List.mem_range.mp hmb
    have hit : ftIter n 1 mb = mb := by unfold ftIter; omega
    constructor
    · rw [hit, Nat.mod_eq_of_lt (by omega)]
      omega
    · rw [hit]
      show ¬ (4 * (n : ℚ) ≤ (mb : ℚ))
      rw [not_le]
      exact_mod_cast (by omega : mb < 4 * n)
  have hcast : ((n - 1 : Nat) : ℚ) * 2 ≤ 4 * (n : ℚ) := by
    exact_mod_cast (by omega : (n - 1) * 2 ≤ 4 * n)
  have hit : ftIter n 1 (n - 1) = n - 1 := by unfold ftIter; omega
  unfold ftStep
  rw [hit, if_pos (by rw [show n - 1 + 1 = n by omega, Nat.mod_self]),
    applyCheck_none _ _ _ rfl]
  unfold ftDone
  rw [if_neg ?pat]
  case pat =>
    show ¬ max (4 * (n : ℚ)) (((n - 1 : Nat) : ℚ) * 2) ≤ ((n - 1 : Nat) : ℚ)
    rw [max_eq_left hcast, not_le]
    exact_mod_cast (by omega : n - 1 < 4 * n)
  show ({ patience := max (4 * (n : ℚ)) (((n - 1 : Nat) : ℚ) * 2),
          best := some (losses 0), best_iter := some (n - 1), done := false,
          checks := 1, stop_iter := none } : FTState) = _
  rw [max_eq_left hcast]

/-- An epoch `e ≤ 4` whose single validation (at its last minibatch)
does not improve on the recorded best `L` only consumes one loss from
the oracle; patience stays `4n` and no exit fires since every iteration
of the epoch is below `4n`. -/
theorem ftEpoch_noimp (losses : Nat → ℚ) (n e : Nat) (hn : 1 ≤ n)
    (he1 : 1 ≤ e) (he4 : e ≤ 4) (L : ℚ) (bi : Option Nat) (c : Nat)
    (hnoimp : L ≤ losses c) :
    ftEpoch losses n n e (List.range n)
      { patience := 4 * n, best := some L, best_iter := bi, done := false,
        checks := c, stop_iter := none } =
      { patience := 4 * n, best := some L, best_iter := bi, done := false,
        checks := c + 1, stop_iter := none } := by
  have hmul3 : (e - 1) * n ≤ 3 * n := Nat.mul_le_mul_right n (by omega)
  have hr : List.range n = List.range (n - 1) ++ [n - 1] := by
    conv_lhs => rw [show n = (n - 1) + 1 by omega]
    rw [List.range_succ]
  rw [hr, ftEpoch_skip losses n n e _ _ _ rfl ?side, ftEpoch_singleton]
  case side =>
    intro mb hmb
    have hmblt : mb < n - 1 := List.mem_range.mp hmb
    constructor
    · unfold ftIter
      rw [show (e - 1) * n + mb + 1 = (mb + 1) + (e - 1) * n by omega,
        Nat.add_mul_mod_self_right, Nat.mod_eq_of_lt (by omega)]
      omega
    · show ¬ (4 * (n : ℚ) ≤ ((ftIter n e mb : Nat) : ℚ))
      rw [not_le]
      exact_mod_cast (show ftIter n e mb < 4 * n by unfold ftIter; omega)
  have hsub : (e - 1) * n = e * n - n := Nat.sub_one_mul e n
  have hlen : n ≤ e * n := Nat.le_mul_of_pos_left n (by omega)
  unfold ftStep
  rw [if_pos (show (ftIter n e (n - 1) + 1) % n = 0 by
        unfold ftIter
        rw [show (e - 1) * n + (n - 1) + 1 = e * n by omega]
        exact Nat.mul_mod_left e n),
    applyCheck_stale _ _ _ L rfl hnoimp]
  unfold ftDone
  rw [if_neg (show ¬ (4 * (n : ℚ) ≤ ((ftIter n e (n - 1) : Nat) : ℚ)) by
        rw [not_le]
        exact_mod_cast (show ftIter n e (n - 1) < 4 * n by unfold ftIter; omega))]

/-- The fifth epoch with no improvement: at its first minibatch
`iter = 4n` reaches the unchanged `patience = 4n`, so the `done` flag
fires there, recording `stop_iter = 4n` and breaking the minibatch
loop (when `n = 1` a fruitless validation happens first at that same
minibatch). -/
theorem ftEpoch_fifth (losses : Nat → ℚ) (n : Nat) (hn : 1 ≤ n) (L : ℚ)
    (bi : Option Nat) (c : Nat) (hnoimp : L ≤ losses c) :
    ∃ c', ftEpoch losses n n 5 (List.range n)
      { patience := 4 * n, best := some L, best_iter := bi, done := false,
        checks := c, stop_iter := none } =
      { patience := 4 * n, best := some L, best_iter := bi, done := true,
        checks := c', stop_iter := some (4 * n) } := by
  have hr : List.range n = 0 :: (List.range (n - 1)).map Nat.succ := by
    conv_lhs => rw [show n = (n - 1) + 1 by omega]
    rw [List.range_succ_eq_map]
  have hit : ftIter n 5 0 = 4 * n := by unfold ftIter; omega
  have hpat : (4 * (n : ℚ)) ≤ ((ftIter n 5 0 : Nat) : ℚ) := by
    rw [hit]; push_cast; rfl
  rw [hr, ftEpoch_cons]
  by_cases hn1 : n = 1
  · subst hn1
    refine ⟨c + 1, ?_⟩
    unfold ftStep
    rw [if_pos (show (ftIter 1 5 0 + 1) % 1 = 0 from Nat.mod_one _),
      applyCheck_stale _ _ _ L rfl hnoimp]
    unfold ftDone
    rw [if_pos hpat]
    rw [if_pos rfl]
    rfl
  · have hn2 : 2 ≤ n := by omega
    refine ⟨c, ?_⟩
    unfold ftStep
    rw [if_neg (show ¬ (ftIter n 5 0 + 1) % n = 0 by
          rw [hit, show 4 * n + 1 = 1 + 4 * n by omega,
            Nat.add_mul_mod_self_right, Nat.mod_eq_of_lt (by omega)]
          omega)]
    unfold ftDone
    rw [if_pos hpat]
    rw [if_pos rfl]
    rfl

theorem ftLoop_done (losses : Nat → ℚ) (freq n epoch fuel epoch_j : Nat)
    (s : FTState) (h : s.done = true) :
    ftLoop losses freq n epoch fuel epoch_j s = s := by
  cases fuel with
  | zero => rfl
  | succ f =>
      unfold ftLoop
      rw [if_neg (by simp [h])]

theorem ftLoop_step (losses : Nat → ℚ) (freq n epoch fuel epoch_j : Nat)
    (s : FTState) (h1 : epoch_j < epoch) (h2 : s.done = false) :
    ftLoop losses freq n epoch (fuel + 1) epoch_j s =
      ftLoop losses freq n epoch fuel (epoch_j + 1)
        (ftEpoch losses freq n (epoch_j + 1) (List.range n) s) := by
  unfold ftLoop
  rw [if_pos ⟨h1, h2⟩]
  cases fuel <;> rfl

/-- With `patience = 4n` an even division gives
`validation_frequency = min(n, 2n) = n`: a check at the end of each
epoch. -/
theorem validationFrequency_eq (n : Nat) : validationFrequency n = n := by
  unfold validationFrequency
  rw [show 4 * n / 2 = 2 * n by omega]
  exact Nat.min_eq_left (by omega)

/-- The final state of the whole fine-tuning loop when no validation
loss ever improves on the first one: the first check fixes the best at
`losses 0`, `best_iter = n - 1`; epochs 2-4 change nothing; the exit
fires at `iter = 4n` in epoch 5. -/
theorem runFinetune_noimp (losses : Nat → ℚ) (n epoch : Nat) (hn : 1 ≤ n)
    (hepoch : 5 ≤ epoch) (hnoimp : ∀ k, losses 0 ≤ losses k) :
    ∃ c', runFinetune losses n epoch =
      { patience := 4 * n, best := some (losses 0),
        best_iter := some (n - 1), done := true, checks := c',
        stop_iter := some (4 * n) } := by
  obtain ⟨f, hf⟩ := Nat.exists_eq_add_of_le hepoch
  unfold runFinetune
  rw [validationFrequency_eq]
  subst hf
  rw [show 5 + f = (f + 4) + 1 by omega,
    ftLoop_step _ _ _ _ _ _ _ (by omega) rfl, ftEpoch_first losses n hn,
    show f + 4 = (f + 3) + 1 by omega,
    ftLoop_step _ _ _ _ _ _ _ (by omega) rfl,
    ftEpoch_noimp losses n 2 hn (by omega) (by omega) (losses 0)
      (some (n - 1)) 1 (hnoimp 1),
    show f + 3 = (f + 2) + 1 by omega,
    ftLoop_step _ _ _ _ _ _ _ (by omega) rfl,
    ftEpoch_noimp losses n 3 hn (by omega) (by omega) (losses 0)
      (some (n - 1)) 2 (hnoimp 2),
    show f + 2 = (f + 1) + 1 by omega,
    ftLoop_step _ _ _ _ _ _ _ (by omega) rfl,
    ftEpoch_noimp losses n 4 hn (by omega) (by omega) (losses 0)
      (some (n - 1)) 3 (hnoimp 3),
    ftLoop_step _ _ _ _ _ _ _ (by omega) rfl]
  obtain ⟨c', hc⟩ := ftEpoch_fifth losses n hn (losses 0) (some (n - 1)) 4
    (hnoimp 4)
  rw [hc, ftLoop_done _ _ _ _ _ _ _ rfl]
  exact ⟨c', rfl⟩

/-- C6 (amended): when no mean validation loss ever improves on the
first observed one (and the epoch ceiling, at least 5, does not bind
first), the fine-tuning loop stops by setting `done` the first time
`iter >= patience`, at iteration `patience_initial = 4 *
n_train_batches`; the best recorded loss is the first one, observed at
`best_iter = n_train_batches - 1` — the first validation check, at the
end of epoch 1, not at iteration 0. -/
theorem early_stopping_terminates (losses : Nat → ℚ) (n epoch : Nat)
    (hn : 1 ≤ n) (hepoch : 5 ≤ epoch)
    (hnoimp : ∀ k, losses 0 ≤ losses k) :
    (runFinetune losses n epoch).done = true ∧
    (runFinetune losses n epoch).stop_iter = some (4 * n) ∧
    (runFinetune losses n epoch).best_iter = some (n - 1) ∧
    (runFinetune losses n epoch).best = some (losses 0) := by
  obtain ⟨c', hc⟩ := runFinetune_noimp losses n epoch hn hepoch hnoimp
  rw [hc]
  exact ⟨rfl, rfl, rfl, rfl⟩

/-- C6 counterexample: with `n_train_batches = 2`, `max_epochs = 5` and
a constant validation loss (which never improves on the value of the
first check), the loop does halt at iteration `4 * n_train_batches = 8`
— but `best_iter` is `1 = n_train_batches - 1` (validation first
happens at the end of epoch 1), not `0` as the claim states. -/
theorem early_stopping_counterexample :
    (runFinetune (fun _ => 1) 2 5).stop_iter = some 8 ∧
    (runFinetune (fun _ => 1) 2 5).best_iter = some 1 ∧
    (runFinetune (fun _ => 1) 2 5).best_iter ≠ some 0 := by
  obtain ⟨c', hc⟩ := runFinetune_noimp (fun _ => 1) 2 5 (by omega) (by omega)
    (fun k => le_refl 1)
  rw [hc]
  norm_num

/-- Witness for C6's amended theorem at `n_train_batches = 1`,
`max_epochs = 5`, constant losses: halt at iteration 4, best at
iteration 0. -/
theorem early_stopping_terminates_witness :
    (runFinetune (fun _ => 1) 1 5).done = true ∧
    (runFinetune (fun _ => 1) 1 5).stop_iter = some 4 ∧
    (runFinetune (fun _ => 1) 1 5).best_iter = some 0 := by
  have h := early_stopping_terminates (fun _ => 1) 1 5 (by omega) (by omega)
    (fun k => le_refl 1)
  refine ⟨h.1, ?_, ?_⟩
  · rw [h.2.1]
  · rw [h.2.2.1]

/-- C1 (amended): the filename returned by `train_model` is the literal
template — independent of the validation losses achieved, since the
`val_loss` placeholder is never formatted — while the second component
is the best validation loss of the fine-tuning loop. -/
theorem train_model_fname (l1 l2 : Nat → ℚ) (n1 n2 e1 e2 : Nat)
    (dir app : String) :
    (train_model l1 n1 e1 dir app).1 = (train_model l2 n2 e2 dir app).1 ∧
    (train_model l1 n1 e1 dir app).1 =
      path_join dir ("DBN_weights_" ++ app ++ "_\x7bval_loss:.2f\x7d.hdf5") ∧
    (train_model l1 n1 e1 dir app).2 = (runFinetune l1 n1 e1).best :=
  ⟨rfl, rfl, rfl⟩

/-- C1 counterexample: a run achieving best validation loss `1/4`
returns that loss as second component, but its first component is not
the claimed `out/DBN_weights_a_0.25.hdf5` — the placeholder is left
unsubstituted in the returned filename. -/
theorem train_model_fname_counterexample :
    (train_model (fun _ => 1/4) 1 5 "out" "a").2 = some (1/4) ∧
    specFilename "out" "a" (1/4) = "out/DBN_weights_a_0.25.hdf5" ∧
    (train_model (fun _ => 1/4) 1 5 "out" "a").1 ≠
      specFilename "out" "a" (1/4) := by
  obtain ⟨c', hc⟩ := runFinetune_noimp (fun _ => 1/4) 1 5 (by omega) (by omega)
    (fun k => le_refl _)
  have hf : format2f (1/4) = "0.25" := by
    unfold format2f
    rw [show ⌊(1/4 : ℚ) * 100 + 1/2⌋ = 25 from
      Int.floor_eq_iff.mpr (by norm_num)]
    decide
  refine ⟨?_, ?_, ?_⟩
  · show (runFinetune (fun _ => 1/4) 1 5).best = some (1/4)
    rw [hc]
  · unfold specFilename
    rw [hf]
    decide
  · show path_join "out"
        ("DBN_weights_" ++ "a" ++ "_\x7bval_loss:.2f\x7d.hdf5") ≠
      specFilename "out" "a" (1/4)
    unfold specFilename
    rw [hf]
    decide

/-- C9: the weight-initialisation seed is the fixed literal `123`
whatever the configuration, and the pipeline is deterministic — two
runs with identical configuration and identical input data (the
numeric kernels being functions of those) produce identical
per-minibatch cost sequences and the same best validation loss. -/
theorem dbn_run_deterministic (c1 c2 : Config)
    (cost1 cost2 : Nat → Nat → Nat → ℚ) (l1 l2 : Nat → ℚ) (n1 n2 : Nat)
    (hc : c1 = c2) (hcost : cost1 = cost2) (hl : l1 = l2) (hn : n1 = n2) :
    (build_model c1).seed = 123 ∧
    dbn_run c1 cost1 l1 n1 = dbn_run c2 cost2 l2 n2 := by
  subst hc hcost hl hn
  exact ⟨rfl, rfl⟩

/-- Witness for C9 at a concrete configuration and concrete oracles. -/
theorem dbn_run_deterministic_witness :
    (build_model cfgExample).seed = 123 ∧
    dbn_run cfgExample (fun _ _ _ => 0) (fun _ => 1) 1 =
      dbn_run cfgExample (fun _ _ _ => 0) (fun _ => 1) 1 :=
  dbn_run_deterministic cfgExample cfgExample (fun _ _ _ => 0)
    (fun _ _ _ => 0) (fun _ => 1) (fun _ => 1) 1 1 rfl rfl rfl rfl

end DBNSpec
